import Mathlib

/-!
Shallow embedding of `src/autoencoders/sae/ae.py` (class `Autoencoder`,
a vanilla autoencoder built from two linear maps with optionally tied
weights), together with theorems settling the specification claims.

Tensors are modelled with exact rational entries and an explicit shape
list plus row-major flattened data, matching how PyTorch stores dense
tensors.  Calls into `torch` that can raise (`torch.Tensor` allocation
with a negative size, `nn.init.xavier_uniform_` with zero fan,
`F.linear` with mismatched trailing dimension, `Tensor.copy_` with a
non-broadcastable source) are modelled as `Except` values or explicit
error components, with the error kind named after the condition.
-/

/-- Error kinds surfaced by the torch operations the module calls.
`shapeMismatch` stands for the RuntimeError raised by `F.linear` or
`Tensor.copy_` on incompatible shapes; `negativeDimension` for the
RuntimeError raised by `torch.Tensor(...)` given a negative size;
`zeroFan` for the ZeroDivisionError raised inside
`nn.init.xavier_uniform_` when `fan_in + fan_out = 0`. -/
inductive AEError where
  | shapeMismatch
  | negativeDimension
  | zeroFan
deriving DecidableEq

deriving instance DecidableEq for Except

/-- Dense tensor: shape plus row-major flattened rational data. -/
structure Tensor where
  shape : List Nat
  data : List ℚ
deriving DecidableEq

/-- A tensor is well formed when its data length matches its shape. -/
def Tensor.wf (t : Tensor) : Prop := t.data.length = t.shape.prod

instance (t : Tensor) : Decidable t.wf := by unfold Tensor.wf; infer_instance

/-- Models `nn.init.constant_(bias, 0)` applied to a fresh tensor of the
given shape: every entry is `0`. -/
def Tensor.zeros (shape : List Nat) : Tensor :=
  { shape := shape, data := List.replicate shape.prod 0 }

/-- Dot product of two equally long rows. -/
def dot (xs ys : List ℚ) : ℚ := (List.zipWith (· * ·) xs ys).sum

/-- Row `i` of a flattened matrix whose rows have length `len`. -/
def sliceRow (l : List ℚ) (len i : Nat) : List ℚ :=
  (l.drop (i * len)).take len

/-- Flattened output data of `F.linear`: for each of `rows` input rows
and each of `out` output features, the dot product of the input row with
the corresponding weight row, plus the bias entry. -/
def linData (inputData weightData biasData : List ℚ) (rows out inn : Nat) :
    List ℚ :=
  (List.range rows).flatMap (fun r =>
    (List.range out).map (fun o =>
      dot (sliceRow inputData inn r) (sliceRow weightData inn o) +
        biasData.getD o 0))

/-- Models `torch.nn.functional.linear(input, weight, bias)`:
`input @ weight.t() + bias` with `weight : (out, inn)`, `bias : (out,)`,
accepting inputs of any rank at least 1 whose trailing dimension is
`inn`, and raising a shape error otherwise. -/
def F_linear (input weight bias : Tensor) : Except AEError Tensor :=
  match weight.shape, bias.shape with
  | [out, inn], [bout] =>
      if input.shape ≠ [] ∧ input.shape.getLastD 0 = inn ∧ bout = out then
        .ok { shape := input.shape.dropLast ++ [out],
              data := linData input.data weight.data bias.data
                        input.shape.dropLast.prod out inn }
      else .error .shapeMismatch
  | _, _ => .error .shapeMismatch

/-- Models `Tensor.t()` for the 2-D tensors it is applied to in the
module (the encoder weight, inside the `decoder_weight` accessor).  On
tensors of rank at most 1 `torch` returns the tensor itself; ranks
above 2 raise in `torch` and are never reached here. -/
def Tensor.t (t : Tensor) : Tensor :=
  match t.shape with
  | [r, c] =>
      { shape := [c, r],
        data := (List.range c).flatMap (fun j =>
          (List.range r).map (fun i => t.data.getD (i * c + j) 0)) }
  | _ => t

/-- Left-pads a source shape with `1`s to the destination rank, as
broadcasting does. -/
def padShape (s : List Nat) (n : Nat) : List Nat :=
  List.replicate (n - s.length) 1 ++ s

/-- Whether `src` can be broadcast (expanded) to shape `dst`: `src` has
no more dimensions, and right-aligned each source dimension equals the
destination one or is `1`.  This is the success condition of
`Tensor.copy_`. -/
def canExpand (src dst : List Nat) : Bool :=
  decide (src.length ≤ dst.length) &&
    (List.zip (padShape src dst.length) dst).all
      (fun p => p.1 == p.2 || p.1 == 1)

/-- Data of a source tensor of shape `srcShape` (already padded to the
destination rank) broadcast to shape `dstShape`: dimensions of size `1`
are replicated.  Only meaningful when `canExpand` holds. -/
def expandData : List Nat → List Nat → List ℚ → List ℚ
  | [], _, l => l
  | _ :: _, [], l => l
  | s :: ss, d :: ds, l =>
      if s = d then
        (List.range s).flatMap (fun i =>
          expandData ss ds ((l.drop (i * ss.prod)).take ss.prod))
      else
        (List.range d).flatMap (fun _ => expandData ss ds l)

/-- Models `dst.data.copy_(src)`: requires `src` to be broadcastable to
`dst`'s shape, and overwrites `dst`'s data with the (possibly
replicated) data of `src`, keeping `dst`'s shape.  Raises a shape error
when the source is not broadcastable. -/
def Tensor.copy_ (dst src : Tensor) : Except AEError Tensor :=
  if canExpand src.shape dst.shape then
    .ok { shape := dst.shape,
          data := expandData (padShape src.shape dst.shape.length)
                    dst.shape src.data }
  else .error .shapeMismatch

/-- Models the `weight`/`bias` slots of a `torch.nn.Linear` target of
`copy_weights`. -/
structure Linear where
  weight : Tensor
  bias : Tensor
deriving DecidableEq

/-- State of the `Autoencoder` module: configuration plus the parameter
tensors.  `_decoder_weight` is `none` exactly when the weights are tied,
as in the source where the attribute is then `None`. -/
structure Autoencoder where
  embedding_dimension : Int
  hidden_dimension : Int
  activation : Option (Tensor → Tensor)
  corruption : Option (Tensor → Tensor)
  gain : ℚ
  encoder_weight : Tensor
  encoder_bias : Tensor
  _decoder_weight : Option Tensor
  decoder_bias : Tensor

/-- Models `Autoencoder.__init__`.  The two Xavier-uniform draws are
abstracted as oracles `encDraw`, `decDraw` supplying the sampled
entries (their distribution is irrelevant to every claim).  Error
behaviour follows torch, in the order the constructor hits it: the very
first allocation `torch.Tensor(hidden_dimension, embedding_dimension)`
raises on a negative dimension (this already involves both dimensions,
so it subsumes the later allocations' negative checks), and
`nn.init.xavier_uniform_` divides by `fan_in + fan_out`, raising
exactly when both dimensions are `0` — the same condition for the
encoder weight `(H, E)` and the untied decoder weight `(E, H)`.  The
source performs no dimension validation of its own. -/
def Autoencoder.construct (eDim hDim : Int)
    (activation corruption : Option (Tensor → Tensor)) (gain : ℚ)
    (tied : Bool) (encDraw decDraw : Nat → ℚ) :
    Except AEError Autoencoder :=
  if ¬ (0 ≤ hDim ∧ 0 ≤ eDim) then .error .negativeDimension
  else if hDim.toNat + eDim.toNat = 0 then .error .zeroFan
  else
    let H := hDim.toNat
    let E := eDim.toNat
    .ok { embedding_dimension := eDim, hidden_dimension := hDim,
          activation := activation, corruption := corruption, gain := gain,
          encoder_weight := ⟨[H, E], (List.range (H * E)).map encDraw⟩,
          encoder_bias := Tensor.zeros [H],
          _decoder_weight :=
            if tied then none
            else some ⟨[E, H], (List.range (E * H)).map decDraw⟩,
          decoder_bias := Tensor.zeros [E] }

/-- Models the `decoder_weight` property: the independent parameter when
present, otherwise the live transpose of the current encoder weight. -/
def Autoencoder.decoder_weight (m : Autoencoder) : Tensor :=
  match m._decoder_weight with
  | some w => w
  | none => m.encoder_weight.t

/-- Applies an optional module (`activation` or `corruption`) the way
`encode` does: `if f is not None: t = f(t)`. -/
def applyOpt (f : Option (Tensor → Tensor)) (t : Tensor) : Tensor :=
  match f with
  | some g => g t
  | none => t

/-- Models `Autoencoder.encode`: `F.linear` with the encoder parameters,
then the optional activation, then the optional corruption. -/
def Autoencoder.encode (m : Autoencoder) (batch : Tensor) :
    Except AEError Tensor :=
  match F_linear batch m.encoder_weight m.encoder_bias with
  | .error e => .error e
  | .ok transformed => .ok (applyOpt m.corruption (applyOpt m.activation transformed))

/-- Models `Autoencoder.decode`: `F.linear` with the resolved decoder
weight and the decoder bias; no activation, no corruption. -/
def Autoencoder.decode (m : Autoencoder) (batch : Tensor) :
    Except AEError Tensor :=
  F_linear batch m.decoder_weight m.decoder_bias

/-- Models `Autoencoder.forward`: `decode(encode(batch))`. -/
def Autoencoder.forward (m : Autoencoder) (batch : Tensor) :
    Except AEError Tensor :=
  match m.encode batch with
  | .error e => .error e
  | .ok t => m.decode t

/-- Models `Autoencoder.copy_weights`, keeping Python's
exception-with-mutation semantics: the four `copy_` calls run in source
order (encoder weight, encoder bias, decoder weight, decoder bias); the
first failing call raises, and the copies already performed persist in
the targets.  Returns the final target states together with the raised
error, if any. -/
def Autoencoder.copy_weights (m : Autoencoder) (encoder decoder : Linear) :
    (Linear × Linear) × Option AEError :=
  match encoder.weight.copy_ m.encoder_weight with
  | .error e => ((encoder, decoder), some e)
  | .ok ew =>
    match encoder.bias.copy_ m.encoder_bias with
    | .error e => (({ weight := ew, bias := encoder.bias }, decoder), some e)
    | .ok eb =>
      match decoder.weight.copy_ m.decoder_weight with
      | .error e => (({ weight := ew, bias := eb }, decoder), some e)
      | .ok dw =>
        match decoder.bias.copy_ m.decoder_bias with
        | .error e =>
            (({ weight := ew, bias := eb },
              { weight := dw, bias := decoder.bias }), some e)
        | .ok db =>
            (({ weight := ew, bias := eb },
              { weight := dw, bias := db }), none)

/-! Helper lemmas about flattened row-major data. -/

/-- Reading a mapped range at a valid index. -/
theorem getD_map_range {α : Type} (f : Nat → α) (d : α) {o m : Nat}
    (h : o < m) : ((List.range m).map f).getD o d = f o := by
  rw [List.getD_eq_getElem?_getD, List.getElem?_map, List.getElem?_range h]
  rfl

/-- Pointwise-equal functions give equal flatMaps. -/
theorem flatMap_congr {α β : Type} (l : List α) (f g : α → List β)
    (h : ∀ a ∈ l, f a = g a) : l.flatMap f = l.flatMap g := by
  induction l with
  | nil => rfl
  | cons x xs ih =>
      simp only [List.flatMap_cons]
      rw [h x (by simp), ih (fun a ha => h a (by simp [ha]))]

/-- Length of a flatMap over a range of constant-length blocks. -/
theorem length_flatMap_range {α : Type} (g : Nat → List α) (n m : Nat)
    (hg : ∀ i, i < n → (g i).length = m) :
    ((List.range n).flatMap g).length = n * m := by
  induction n with
  | zero => simp
  | succ k ih =>
      rw [List.range_succ]
      simp only [List.flatMap_append, List.flatMap_cons, List.flatMap_nil,
        List.length_append, List.append_nil]
      rw [ih (fun i hi => hg i (Nat.lt_succ_of_lt hi)), hg k (Nat.lt_succ_self k)]
      ring

/-- Reading a flatMap of constant-length blocks at block `r`, offset `o`. -/
theorem getD_flatMap_range {α : Type} (g : Nat → List α) (d : α)
    {n m r o : Nat} (hg : ∀ i, i < n → (g i).length = m)
    (hr : r < n) (ho : o < m) :
    ((List.range n).flatMap g).getD (r * m + o) d = (g r).getD o d := by
  induction n generalizing g r with
  | zero => omega
  | succ k ih =>
      rcases Nat.lt_succ_iff_lt_or_eq.mp hr with hrk | hrk
      · rw [List.range_succ]
        simp only [List.flatMap_append, List.flatMap_cons, List.flatMap_nil,
          List.append_nil]
        rw [List.getD_append]
        · exact ih g (fun i hi => hg i (Nat.lt_succ_of_lt hi)) hrk
        · rw [length_flatMap_range g k m (fun i hi => hg i (Nat.lt_succ_of_lt hi))]
          calc r * m + o < r * m + m := by omega
            _ = (r + 1) * m := by ring
            _ ≤ k * m := Nat.mul_le_mul_right m hrk
      · subst hrk
        rw [List.range_succ]
        simp only [List.flatMap_append, List.flatMap_cons, List.flatMap_nil,
          List.append_nil]
        rw [List.getD_append_right]
        · rw [length_flatMap_range g r m (fun i hi => hg i (Nat.lt_succ_of_lt hi))]
          congr 1
          omega
        · rw [length_flatMap_range g r m (fun i hi => hg i (Nat.lt_succ_of_lt hi))]
          omega

/-- Concatenating the size-`P` chunks of a list of length `s * P`
recovers the list. -/
theorem flatMap_range_chunks {α : Type} (P s : Nat) (l : List α)
    (h : l.length = s * P) :
    (List.range s).flatMap (fun i => (l.drop (i * P)).take P) = l := by
  induction s generalizing l with
  | zero =>
      simp only [Nat.zero_mul] at h
      simp [List.eq_nil_of_length_eq_zero h]
  | succ k ih =>
      have hlen : (l.drop P).length = k * P := by
        rw [List.length_drop, h]
        ring_nf
        omega
      rw [List.range_succ_eq_map]
      rw [List.flatMap_cons, List.flatMap_map]
      have hrest :
          (List.range k).flatMap
              (fun a => (l.drop (Nat.succ a * P)).take P) =
            (List.range k).flatMap
              (fun i => ((l.drop P).drop (i * P)).take P) := by
        apply flatMap_congr
        intro a _
        rw [List.drop_drop]
        congr 2
        rw [Nat.succ_eq_add_one]
        ring
      rw [hrest, ih (l.drop P) hlen]
      simp

/-- Broadcasting a tensor's data to its own shape is the identity. -/
theorem expandData_self (s : List Nat) (l : List ℚ) (h : l.length = s.prod) :
    expandData s s l = l := by
  induction s generalizing l with
  | nil => rfl
  | cons d ds ih =>
      rw [expandData, if_pos rfl]
      have hchunk : ∀ i, i < d →
          ((l.drop (i * ds.prod)).take ds.prod).length = ds.prod := by
        intro i hi
        rw [List.length_take, List.length_drop, h, List.prod_cons]
        have : i * ds.prod + ds.prod ≤ d * ds.prod := by
          calc i * ds.prod + ds.prod = (i + 1) * ds.prod := by ring
            _ ≤ d * ds.prod := Nat.mul_le_mul_right _ hi
        omega
      rw [flatMap_congr (List.range d) _
            (fun i => (l.drop (i * ds.prod)).take ds.prod)
            (fun i hi => ih _ (hchunk i (List.mem_range.mp hi)))]
      exact flatMap_range_chunks ds.prod d l (by rw [h, List.prod_cons])

/-- Zipping a list with itself pairs each element with itself. -/
theorem zip_self_all_eq (s : List Nat) :
    (List.zip s s).all (fun p => p.1 == p.2 || p.1 == 1) = true := by
  induction s with
  | nil => rfl
  | cons a as ih =>
      simp [List.zip_cons_cons, ih]

/-- A shape can always be broadcast to itself. -/
theorem canExpand_self (s : List Nat) : canExpand s s = true := by
  have h1 : padShape s s.length = s := by simp [padShape]
  unfold canExpand
  rw [h1]
  simp [zip_self_all_eq s]

/-! Characterizations of the embedded torch operations. -/

/-- Entry `(r, o)` of `linData` is the affine-transform formula. -/
theorem linData_getD (inputData weightData biasData : List ℚ)
    {rows out inn : Nat} {r o : Nat} (hr : r < rows) (ho : o < out) :
    (linData inputData weightData biasData rows out inn).getD (r * out + o) 0 =
      dot (sliceRow inputData inn r) (sliceRow weightData inn o) +
        biasData.getD o 0 := by
  unfold linData
  rw [getD_flatMap_range _ 0 (fun i _ => by simp) hr ho]
  rw [getD_map_range _ 0 ho]

/-- Length of `linData`. -/
theorem linData_length (inputData weightData biasData : List ℚ)
    (rows out inn : Nat) :
    (linData inputData weightData biasData rows out inn).length = rows * out := by
  unfold linData
  exact length_flatMap_range _ rows out (fun i _ => by simp)

/-- On an input whose trailing dimension matches the weight's second
dimension, `F_linear` succeeds and returns the affine-transform tensor. -/
theorem F_linear_eq_ok (input weight bias : Tensor) (bs : List Nat)
    (out inn : Nat) (hw : weight.shape = [out, inn])
    (hb : bias.shape = [out]) (hin : input.shape = bs ++ [inn]) :
    F_linear input weight bias =
      .ok ⟨bs ++ [out],
           linData input.data weight.data bias.data bs.prod out inn⟩ := by
  unfold F_linear
  rw [hw, hb]
  show (if input.shape ≠ [] ∧ input.shape.getLastD 0 = inn ∧ out = out then
          Except.ok (⟨input.shape.dropLast ++ [out],
            linData input.data weight.data bias.data
              input.shape.dropLast.prod out inn⟩ : Tensor)
        else Except.error AEError.shapeMismatch) = _
  rw [if_pos ⟨by rw [hin]; simp, by rw [hin]; simp, rfl⟩]
  rw [hin]
  simp

/-- On an input whose trailing dimension does not match, or of rank 0,
`F_linear` raises the shape error. -/
theorem F_linear_eq_error (input weight bias : Tensor)
    (out inn : Nat) (hw : weight.shape = [out, inn])
    (hb : bias.shape = [out])
    (hin : input.shape = [] ∨ input.shape.getLastD 0 ≠ inn) :
    F_linear input weight bias = .error .shapeMismatch := by
  unfold F_linear
  rw [hw, hb]
  show (if input.shape ≠ [] ∧ input.shape.getLastD 0 = inn ∧ out = out then
          Except.ok (⟨input.shape.dropLast ++ [out],
            linData input.data weight.data bias.data
              input.shape.dropLast.prod out inn⟩ : Tensor)
        else Except.error AEError.shapeMismatch) = _
  rw [if_neg]
  intro ⟨h1, h2, _⟩
  rcases hin with h | h
  · exact h1 h
  · exact h h2

/-- Shape of the transpose of a 2-D tensor. -/
theorem t_shape (t : Tensor) (r c : Nat) (h : t.shape = [r, c]) :
    (t.t).shape = [c, r] := by
  unfold Tensor.t
  rw [h]

/-- Entries of the transpose of a 2-D tensor. -/
theorem t_getD (t : Tensor) (r c : Nat) (h : t.shape = [r, c])
    {j i : Nat} (hj : j < c) (hi : i < r) :
    (t.t).data.getD (j * r + i) 0 = t.data.getD (i * c + j) 0 := by
  unfold Tensor.t
  rw [h]
  simp only
  rw [getD_flatMap_range _ 0 (fun x _ => by simp) hj hi]
  rw [getD_map_range _ 0 hi]

/-- Data length of the transpose of a 2-D tensor. -/
theorem t_length (t : Tensor) (r c : Nat) (h : t.shape = [r, c]) :
    (t.t).data.length = c * r := by
  unfold Tensor.t
  rw [h]
  simp only
  exact length_flatMap_range _ c r (fun i _ => by simp)

/-- Copying a well-formed tensor into a destination of exactly the same
shape succeeds and leaves the destination equal to the source. -/
theorem copy_eq_of_same_shape (dst src : Tensor) (hs : dst.shape = src.shape)
    (hwf : src.wf) : dst.copy_ src = .ok src := by
  unfold Tensor.copy_
  rw [hs]
  rw [if_pos (canExpand_self src.shape)]
  have hpad : padShape src.shape src.shape.length = src.shape := by
    simp [padShape]
  rw [hpad, expandData_self src.shape src.data hwf]

/-- With positive dimensions, construction succeeds and returns the
fully initialised module. -/
theorem construct_eq_ok (eDim hDim : Int) (hE : 0 < eDim) (hH : 0 < hDim)
    (activation corruption : Option (Tensor → Tensor)) (gain : ℚ)
    (tied : Bool) (encDraw decDraw : Nat → ℚ) :
    Autoencoder.construct eDim hDim activation corruption gain tied
        encDraw decDraw =
      .ok { embedding_dimension := eDim, hidden_dimension := hDim,
            activation := activation, corruption := corruption, gain := gain,
            encoder_weight := ⟨[hDim.toNat, eDim.toNat],
              (List.range (hDim.toNat * eDim.toNat)).map encDraw⟩,
            encoder_bias := Tensor.zeros [hDim.toNat],
            _decoder_weight :=
              if tied then none
              else some ⟨[eDim.toNat, hDim.toNat],
                (List.range (eDim.toNat * hDim.toNat)).map decDraw⟩,
            decoder_bias := Tensor.zeros [eDim.toNat] } := by
  unfold Autoencoder.construct
  rw [if_neg (by omega), if_neg (by omega)]

/-- On a batch of matching trailing dimension, `encode` succeeds:
affine transform, then optional activation, then optional corruption. -/
theorem encode_ok (m : Autoencoder) {H E : Nat} (bs : List Nat)
    (batch : Tensor) (hw : m.encoder_weight.shape = [H, E])
    (hb : m.encoder_bias.shape = [H]) (hin : batch.shape = bs ++ [E]) :
    m.encode batch =
      .ok (applyOpt m.corruption (applyOpt m.activation
        ⟨bs ++ [H],
         linData batch.data m.encoder_weight.data m.encoder_bias.data
           bs.prod H E⟩)) := by
  unfold Autoencoder.encode
  rw [F_linear_eq_ok batch m.encoder_weight m.encoder_bias bs H E hw hb hin]

/-- On a batch of matching trailing dimension, `decode` succeeds and is
the bare affine transform by the resolved decoder parameters. -/
theorem decode_ok (m : Autoencoder) {E H : Nat} (bs : List Nat)
    (batch : Tensor) (hw : m.decoder_weight.shape = [E, H])
    (hb : m.decoder_bias.shape = [E]) (hin : batch.shape = bs ++ [H]) :
    m.decode batch =
      .ok ⟨bs ++ [E],
           linData batch.data m.decoder_weight.data m.decoder_bias.data
             bs.prod E H⟩ := by
  unfold Autoencoder.decode
  rw [F_linear_eq_ok batch m.decoder_weight m.decoder_bias bs E H hw hb hin]

/-! Claim theorems. -/

/-- C1: for every construction with tied = true and positive dimensions
E and H, the decoder_weight accessor at every read returns exactly the
transpose of the current encoder_weight (shape E x H), with no
independent decoder weight stored, so any mutation of encoder_weight is
immediately reflected in subsequent reads of decoder_weight and in
decode(). -/
theorem tied_decoder_weight_is_live_transpose
    (eDim hDim : Int) (hE : 0 < eDim) (hH : 0 < hDim)
    (act corr : Option (Tensor → Tensor)) (gain : ℚ)
    (encDraw decDraw : Nat → ℚ) :
    ∃ m : Autoencoder,
      Autoencoder.construct eDim hDim act corr gain true encDraw decDraw =
        .ok m ∧
      m._decoder_weight = none ∧
      m.decoder_weight = m.encoder_weight.t ∧
      m.decoder_weight.shape = [eDim.toNat, hDim.toNat] ∧
      (∀ j i : Nat, j < eDim.toNat → i < hDim.toNat →
        m.decoder_weight.data.getD (j * hDim.toNat + i) 0 =
          m.encoder_weight.data.getD (i * eDim.toNat + j) 0) ∧
      (∀ w' : Tensor,
        ({ m with encoder_weight := w' } : Autoencoder).decoder_weight =
          w'.t) ∧
      (∀ w' : Tensor, ∀ batch : Tensor,
        ({ m with encoder_weight := w' } : Autoencoder).decode batch =
          F_linear batch w'.t m.decoder_bias) := by
  refine ⟨_, construct_eq_ok eDim hDim hE hH act corr gain true
    encDraw decDraw, rfl, rfl, ?_, ?_, fun w' => rfl, fun w' batch => rfl⟩
  · exact t_shape _ hDim.toNat eDim.toNat rfl
  · intro j i hj hi
    exact t_getD _ hDim.toNat eDim.toNat rfl hj hi

/-- C2: for every batch whose trailing dimension equals the embedding
dimension, encode computes the affine transform
batch @ encoder_weight^T + encoder_bias, then applies the activation if
configured, then the corruption if configured, in that order; with an
identity activation and no corruption, encode is exactly the affine
transform. -/
theorem encode_is_affine_then_activation_then_corruption
    (m : Autoencoder) (H E : Nat) (bs : List Nat) (batch : Tensor)
    (hw : m.encoder_weight.shape = [H, E])
    (hb : m.encoder_bias.shape = [H])
    (hin : batch.shape = bs ++ [E]) :
    ∃ t : Tensor,
      F_linear batch m.encoder_weight m.encoder_bias = .ok t ∧
      t.shape = bs ++ [H] ∧
      (∀ r o : Nat, r < bs.prod → o < H →
        t.data.getD (r * H + o) 0 =
          dot (sliceRow batch.data E r)
              (sliceRow m.encoder_weight.data E o) +
            m.encoder_bias.data.getD o 0) ∧
      m.encode batch = .ok (applyOpt m.corruption (applyOpt m.activation t)) ∧
      (applyOpt m.activation t = t → m.corruption = none →
        m.encode batch = .ok t) := by
  refine ⟨⟨bs ++ [H],
    linData batch.data m.encoder_weight.data m.encoder_bias.data
      bs.prod H E⟩,
    F_linear_eq_ok batch m.encoder_weight m.encoder_bias bs H E hw hb hin,
    rfl, ?_, encode_ok m bs batch hw hb hin, ?_⟩
  · intro r o hr ho
    exact linData_getD batch.data m.encoder_weight.data
      m.encoder_bias.data hr ho
  · intro hact hnone
    rw [encode_ok m bs batch hw hb hin, hnone, hact]
    rfl

/-- C5: for every batch whose trailing dimension equals the hidden
dimension, decode computes exactly the affine transform
batch @ decoder_weight^T + decoder_bias, with decoder_weight resolved
through the tied-aware accessor, and neither activation nor corruption
applied. -/
theorem decode_is_bare_affine_with_resolved_weight
    (m : Autoencoder) (E H : Nat) (bs : List Nat) (batch : Tensor)
    (hw : m.decoder_weight.shape = [E, H])
    (hb : m.decoder_bias.shape = [E])
    (hin : batch.shape = bs ++ [H]) :
    ∃ t : Tensor,
      F_linear batch m.decoder_weight m.decoder_bias = .ok t ∧
      m.decode batch = .ok t ∧
      t.shape = bs ++ [E] ∧
      (∀ r o : Nat, r < bs.prod → o < E →
        t.data.getD (r * E + o) 0 =
          dot (sliceRow batch.data H r)
              (sliceRow m.decoder_weight.data H o) +
            m.decoder_bias.data.getD o 0) ∧
      (∀ w : Tensor, m._decoder_weight = some w → m.decoder_weight = w) ∧
      (m._decoder_weight = none → m.decoder_weight = m.encoder_weight.t) := by
  refine ⟨⟨bs ++ [E],
    linData batch.data m.decoder_weight.data m.decoder_bias.data
      bs.prod E H⟩,
    F_linear_eq_ok batch m.decoder_weight m.decoder_bias bs E H hw hb hin,
    decode_ok m bs batch hw hb hin, rfl, ?_, ?_, ?_⟩
  · intro r o hr ho
    exact linData_getD batch.data m.decoder_weight.data
      m.decoder_bias.data hr ho
  · intro w hsome
    unfold Autoencoder.decoder_weight
    rw [hsome]
  · intro hnone
    unfold Autoencoder.decoder_weight
    rw [hnone]

/-- C7: immediately after construction, for both tied and untied
configurations, encoder_bias (length H) and decoder_bias (length E) are
all-zero vectors, and decoder_bias is always independently allocated,
never tied to encoder_bias. -/
theorem biases_zero_and_decoder_bias_independent
    (eDim hDim : Int) (hE : 0 < eDim) (hH : 0 < hDim)
    (act corr : Option (Tensor → Tensor)) (gain : ℚ) (tied : Bool)
    (encDraw decDraw : Nat → ℚ) :
    ∃ m : Autoencoder,
      Autoencoder.construct eDim hDim act corr gain tied encDraw decDraw =
        .ok m ∧
      m.encoder_bias.shape = [hDim.toNat] ∧
      m.encoder_bias.data = List.replicate hDim.toNat 0 ∧
      m.decoder_bias.shape = [eDim.toNat] ∧
      m.decoder_bias.data = List.replicate eDim.toNat 0 ∧
      (∀ b' : Tensor,
        ({ m with encoder_bias := b' } : Autoencoder).decoder_bias =
          m.decoder_bias) := by
  refine ⟨_, construct_eq_ok eDim hDim hE hH act corr gain tied
    encDraw decDraw, rfl, ?_, rfl, ?_, fun b' => rfl⟩
  · show (Tensor.zeros [hDim.toNat]).data = List.replicate hDim.toNat 0
    unfold Tensor.zeros
    rw [List.prod_singleton]
  · show (Tensor.zeros [eDim.toNat]).data = List.replicate eDim.toNat 0
    unfold Tensor.zeros
    rw [List.prod_singleton]

/-- C9: for every construction with tied = false, decoder_weight is an
independent parameter: mutating encoder_weight leaves every entry of
decoder_weight unchanged, and mutating the stored decoder weight leaves
encoder_weight unchanged. -/
theorem untied_decoder_weight_is_independent
    (eDim hDim : Int) (hE : 0 < eDim) (hH : 0 < hDim)
    (act corr : Option (Tensor → Tensor)) (gain : ℚ)
    (encDraw decDraw : Nat → ℚ) :
    ∃ (m : Autoencoder) (wd : Tensor),
      Autoencoder.construct eDim hDim act corr gain false encDraw decDraw =
        .ok m ∧
      m._decoder_weight = some wd ∧
      m.decoder_weight = wd ∧
      (∀ w' : Tensor,
        ({ m with encoder_weight := w' } : Autoencoder).decoder_weight =
          m.decoder_weight) ∧
      (∀ w' : Tensor,
        ({ m with encoder_weight := w' } : Autoencoder).decoder_weight = wd) ∧
      (∀ wd' : Tensor,
        ({ m with _decoder_weight := some wd' } : Autoencoder).encoder_weight =
          m.encoder_weight) := by
  exact ⟨_, _, construct_eq_ok eDim hDim hE hH act corr gain false
    encDraw decDraw, rfl, rfl, fun w' => rfl, fun w' => rfl, fun wd' => rfl⟩

/-- C8: for every batch of shape (N, E), forward equals
decode(encode(batch)); encode returns shape (N, H), decode on (N, H)
returns (N, E), so forward maps shape (N, E) to (N, E).  The optional
activation and corruption are assumed shape-preserving, as the
specification requires of those collaborators. -/
theorem forward_is_decode_of_encode_and_preserves_shape
    (m : Autoencoder) (N H E : Nat) (batch : Tensor)
    (hew : m.encoder_weight.shape = [H, E])
    (heb : m.encoder_bias.shape = [H])
    (hdw : m.decoder_weight.shape = [E, H])
    (hdb : m.decoder_bias.shape = [E])
    (hact : ∀ u : Tensor, (applyOpt m.activation u).shape = u.shape)
    (hcor : ∀ u : Tensor, (applyOpt m.corruption u).shape = u.shape)
    (hin : batch.shape = [N, E]) :
    ∃ t u : Tensor,
      m.encode batch = .ok t ∧ t.shape = [N, H] ∧
      m.decode t = .ok u ∧ u.shape = [N, E] ∧
      m.forward batch = .ok u := by
  have henc := encode_ok m [N] batch hew heb hin
  set t := applyOpt m.corruption (applyOpt m.activation
    ⟨[N] ++ [H],
     linData batch.data m.encoder_weight.data m.encoder_bias.data
       ([N]).prod H E⟩) with ht
  have htshape : t.shape = [N] ++ [H] := by
    rw [ht, hcor, hact]
  have hdec := decode_ok m [N] t hdw hdb htshape
  refine ⟨t, _, henc, htshape, hdec, rfl, ?_⟩
  unfold Autoencoder.forward
  rw [henc]
  exact hdec

/-- C10: encode, decode, and forward accept inputs of any rank at least
1 whose trailing dimension matches (E for encode and forward, H for
decode); the output keeps the leading dimensions and replaces the
trailing dimension with the operation's output dimension, and a rank-1
vector input yields a rank-1 vector output.  The optional activation and
corruption are assumed shape-preserving, as the specification requires
of those collaborators. -/
theorem operations_accept_any_rank_at_least_one
    (m : Autoencoder) (H E : Nat)
    (hew : m.encoder_weight.shape = [H, E])
    (heb : m.encoder_bias.shape = [H])
    (hdw : m.decoder_weight.shape = [E, H])
    (hdb : m.decoder_bias.shape = [E])
    (hact : ∀ u : Tensor, (applyOpt m.activation u).shape = u.shape)
    (hcor : ∀ u : Tensor, (applyOpt m.corruption u).shape = u.shape) :
    (∀ (bs : List Nat) (batch : Tensor), batch.shape = bs ++ [E] →
      ∃ t : Tensor, m.encode batch = .ok t ∧ t.shape = bs ++ [H]) ∧
    (∀ (bs : List Nat) (batch : Tensor), batch.shape = bs ++ [H] →
      ∃ u : Tensor, m.decode batch = .ok u ∧ u.shape = bs ++ [E]) ∧
    (∀ (bs : List Nat) (batch : Tensor), batch.shape = bs ++ [E] →
      ∃ v : Tensor, m.forward batch = .ok v ∧ v.shape = bs ++ [E]) ∧
    (∀ vec : Tensor, vec.shape = [E] →
      ∃ t : Tensor, m.encode vec = .ok t ∧ t.shape = [H]) := by
  have hencode : ∀ (bs : List Nat) (batch : Tensor),
      batch.shape = bs ++ [E] →
      ∃ t : Tensor, m.encode batch = .ok t ∧ t.shape = bs ++ [H] := by
    intro bs batch hin
    refine ⟨_, encode_ok m bs batch hew heb hin, ?_⟩
    rw [hcor, hact]
  have hdecode : ∀ (bs : List Nat) (batch : Tensor),
      batch.shape = bs ++ [H] →
      ∃ u : Tensor, m.decode batch = .ok u ∧ u.shape = bs ++ [E] := by
    intro bs batch hin
    exact ⟨_, decode_ok m bs batch hdw hdb hin, rfl⟩
  refine ⟨hencode, hdecode, ?_, fun vec hv => hencode [] vec hv⟩
  intro bs batch hin
  obtain ⟨t, ht, htshape⟩ := hencode bs batch hin
  obtain ⟨v, hv, hvshape⟩ := hdecode bs t htshape
  refine ⟨v, ?_, hvshape⟩
  unfold Autoencoder.forward
  rw [ht]
  exact hv

/-- Concrete 2-to-1 untied module exercising `copy_weights` mid-failure. -/
def M3 : Autoencoder :=
  ⟨2, 1, none, none, 1,
   ⟨[1, 2], [1, 2]⟩, ⟨[1], [0]⟩,
   some ⟨[2, 1], [3, 4]⟩, ⟨[2], [0, 0]⟩⟩

/-- Target encoder for the C3 counterexample: matching slot shapes. -/
def encT3 : Linear := ⟨⟨[1, 2], [9, 9]⟩, ⟨[1], [7]⟩⟩

/-- Target decoder for the C3 counterexample: its weight slot has shape
(3, 2), not broadcast-compatible with the 2-by-1 source. -/
def decT3 : Linear := ⟨⟨[3, 2], [0, 0, 0, 0, 0, 0]⟩, ⟨[2], [8, 8]⟩⟩

/-- C3 counterexample: `copy_weights` raises on the decoder weight slot,
yet the target encoder's weight has already been overwritten — the call
fails with an effect, so "either fully succeed or have no effect" is
false for `copy_weights`. -/
theorem copy_weights_partial_completion_counterexample :
    (M3.copy_weights encT3 decT3).2 = some AEError.shapeMismatch ∧
    (M3.copy_weights encT3 decT3).1.1.weight ≠ encT3.weight := by
  decide

/-- C3 (amended): encode and decode raise the shape error synchronously
on a wrong trailing input dimension, with the module's parameters
untouched (they are pure functions of the module); copy_weights raises
synchronously at the first failing slot, but the slots copied before it
keep their new values, so it can complete partially. -/
theorem shape_errors_synchronous_and_copy_weights_sequential :
    (∀ (m : Autoencoder) (H E : Nat) (batch : Tensor),
      m.encoder_weight.shape = [H, E] → m.encoder_bias.shape = [H] →
      (batch.shape = [] ∨ batch.shape.getLastD 0 ≠ E) →
      m.encode batch = .error .shapeMismatch) ∧
    (∀ (m : Autoencoder) (E H : Nat) (batch : Tensor),
      m.decoder_weight.shape = [E, H] → m.decoder_bias.shape = [E] →
      (batch.shape = [] ∨ batch.shape.getLastD 0 ≠ H) →
      m.decode batch = .error .shapeMismatch) ∧
    (∀ (m : Autoencoder) (enc dec : Linear) (ew eb : Tensor) (e : AEError),
      enc.weight.copy_ m.encoder_weight = .ok ew →
      enc.bias.copy_ m.encoder_bias = .ok eb →
      dec.weight.copy_ m.decoder_weight = .error e →
      m.copy_weights enc dec = ((⟨ew, eb⟩, dec), some e)) := by
  refine ⟨?_, ?_, ?_⟩
  · intro m H E batch hw hb hbad
    unfold Autoencoder.encode
    rw [F_linear_eq_error batch m.encoder_weight m.encoder_bias H E hw hb hbad]
  · intro m E H batch hw hb hbad
    unfold Autoencoder.decode
    exact F_linear_eq_error batch m.decoder_weight m.decoder_bias E H hw hb hbad
  · intro m enc dec ew eb e h1 h2 h3
    unfold Autoencoder.copy_weights
    rw [h1, h2, h3]

/-- C4 counterexample: constructing with embedding_dimension = 0 (and
hidden_dimension = 1) succeeds — the source performs no dimension
validation, so no InvalidDimension error is raised for a non-positive
dimension. -/
theorem construct_zero_dimension_succeeds_counterexample :
    (Autoencoder.construct 0 1 none none 1 false (fun _ => 0)
      (fun _ => 0)).toBool = true := by
  decide

/-- C4 (amended): construction never validates the dimensions itself.
For positive dimensions it succeeds; for a zero embedding dimension
with positive hidden dimension it still succeeds (no error at all); a
negative dimension fails, but with the tensor library's
negative-dimension allocation error, not a dedicated InvalidDimension
error. -/
theorem construct_has_no_dimension_validation :
    (∀ (eDim hDim : Int) (act corr : Option (Tensor → Tensor)) (gain : ℚ)
        (tied : Bool) (d1 d2 : Nat → ℚ), 0 < eDim → 0 < hDim →
      (Autoencoder.construct eDim hDim act corr gain tied d1 d2).toBool =
        true) ∧
    (∀ (eDim hDim : Int) (act corr : Option (Tensor → Tensor)) (gain : ℚ)
        (tied : Bool) (d1 d2 : Nat → ℚ), eDim < 0 ∨ hDim < 0 →
      Autoencoder.construct eDim hDim act corr gain tied d1 d2 =
        .error .negativeDimension) ∧
    (∀ (hDim : Int) (act corr : Option (Tensor → Tensor)) (gain : ℚ)
        (tied : Bool) (d1 d2 : Nat → ℚ), 0 < hDim →
      (Autoencoder.construct 0 hDim act corr gain tied d1 d2).toBool =
        true) := by
  refine ⟨?_, ?_, ?_⟩
  · intro eDim hDim act corr gain tied d1 d2 hE hH
    rw [construct_eq_ok eDim hDim hE hH act corr gain tied d1 d2]
    rfl
  · intro eDim hDim act corr gain tied d1 d2 hneg
    unfold Autoencoder.construct
    rw [if_pos (by omega)]
  · intro hDim act corr gain tied d1 d2 hH
    unfold Autoencoder.construct
    rw [if_neg (by omega), if_neg (by omega)]
    rfl

/-- Concrete 1-to-1 untied module for the C6 counterexample. -/
def M6 : Autoencoder :=
  ⟨1, 1, none, none, 1,
   ⟨[1, 1], [5]⟩, ⟨[1], [0]⟩,
   some ⟨[1, 1], [6]⟩, ⟨[1], [0]⟩⟩

/-- Target encoder for the C6 counterexample: its weight slot has shape
(2, 1), which the 1-by-1 source broadcasts to. -/
def encT6 : Linear := ⟨⟨[2, 1], [0, 0]⟩, ⟨[1], [9]⟩⟩

/-- Target decoder for the C6 counterexample: exactly matching shapes. -/
def decT6 : Linear := ⟨⟨[1, 1], [7]⟩, ⟨[1], [8]⟩⟩

/-- C6 counterexample: a call of `copy_weights` that succeeds (the
underlying `copy_` broadcasts a size-1 source dimension), after which
the target encoder's weight does not equal encoder_weight element for
element — it has shape (2, 1) and replicated values. -/
theorem copy_weights_broadcast_success_counterexample :
    (M6.copy_weights encT6 decT6).2 = none ∧
    (M6.copy_weights encT6 decT6).1.1.weight ≠ M6.encoder_weight := by
  decide

/-- C6 (amended): after a successful call of copy_weights whose target
slots' shapes exactly match the corresponding source shapes, the target
encoder holds encoder_weight and encoder_bias and the target decoder
holds the resolved decoder_weight and decoder_bias, element for
element; only the two targets are written, the module itself being read
only.  (A call can also succeed by broadcasting a size-1 source
dimension, and then the affected slot holds replicated values instead.) -/
theorem copy_weights_exact_shapes_copy_elementwise
    (m : Autoencoder) (enc dec : Linear)
    (h1 : enc.weight.shape = m.encoder_weight.shape)
    (hwf1 : m.encoder_weight.wf)
    (h2 : enc.bias.shape = m.encoder_bias.shape)
    (hwf2 : m.encoder_bias.wf)
    (h3 : dec.weight.shape = m.decoder_weight.shape)
    (hwf3 : m.decoder_weight.wf)
    (h4 : dec.bias.shape = m.decoder_bias.shape)
    (hwf4 : m.decoder_bias.wf) :
    m.copy_weights enc dec =
      ((⟨m.encoder_weight, m.encoder_bias⟩,
        ⟨m.decoder_weight, m.decoder_bias⟩), none) := by
  unfold Autoencoder.copy_weights
  rw [copy_eq_of_same_shape enc.weight m.encoder_weight h1 hwf1]
  rw [copy_eq_of_same_shape enc.bias m.encoder_bias h2 hwf2]
  rw [copy_eq_of_same_shape dec.weight m.decoder_weight h3 hwf3]
  rw [copy_eq_of_same_shape dec.bias m.decoder_bias h4 hwf4]

/-! Concrete instantiations (witnesses) of the claim theorems. -/

/-- Witness for C1 at E = 2, H = 3. -/
theorem tied_decoder_weight_is_live_transpose_witness :
    ∃ m : Autoencoder,
      Autoencoder.construct 2 3 none none 1 true (fun n => (n : ℚ))
          (fun _ => 0) = .ok m ∧
      m._decoder_weight = none ∧
      m.decoder_weight = m.encoder_weight.t ∧
      m.decoder_weight.shape = [2, 3] ∧
      (∀ j i : Nat, j < 2 → i < 3 →
        m.decoder_weight.data.getD (j * 3 + i) 0 =
          m.encoder_weight.data.getD (i * 2 + j) 0) ∧
      (∀ w' : Tensor,
        ({ m with encoder_weight := w' } : Autoencoder).decoder_weight =
          w'.t) ∧
      (∀ w' : Tensor, ∀ batch : Tensor,
        ({ m with encoder_weight := w' } : Autoencoder).decode batch =
          F_linear batch w'.t m.decoder_bias) :=
  tied_decoder_weight_is_live_transpose 2 3 (by decide) (by decide)
    none none 1 (fun n => (n : ℚ)) (fun _ => 0)

/-- Concrete 2-to-1 module for the C2 witness: identity path (no
activation, no corruption). -/
def MW2 : Autoencoder :=
  ⟨2, 1, none, none, 1,
   ⟨[1, 2], [3, 4]⟩, ⟨[1], [5]⟩,
   some ⟨[2, 1], [0, 0]⟩, ⟨[2], [0, 0]⟩⟩

/-- Concrete batch of shape (2, 2) for the C2 witness. -/
def BW2 : Tensor := ⟨[2, 2], [1, 0, 0, 1]⟩

/-- Witness for C2 on the concrete module `MW2` and batch `BW2`. -/
theorem encode_is_affine_then_activation_then_corruption_witness :
    ∃ t : Tensor,
      F_linear BW2 MW2.encoder_weight MW2.encoder_bias = .ok t ∧
      t.shape = [2] ++ [1] ∧
      (∀ r o : Nat, r < List.prod [2] → o < 1 →
        t.data.getD (r * 1 + o) 0 =
          dot (sliceRow BW2.data 2 r)
              (sliceRow MW2.encoder_weight.data 2 o) +
            MW2.encoder_bias.data.getD o 0) ∧
      MW2.encode BW2 =
        .ok (applyOpt MW2.corruption (applyOpt MW2.activation t)) ∧
      (applyOpt MW2.activation t = t → MW2.corruption = none →
        MW2.encode BW2 = .ok t) :=
  encode_is_affine_then_activation_then_corruption MW2 1 2 [2] BW2
    rfl rfl rfl

/-- Concrete tied 2-to-1 module for the C5 witness. -/
def MW5 : Autoencoder :=
  ⟨2, 1, none, none, 1,
   ⟨[1, 2], [3, 4]⟩, ⟨[1], [0]⟩,
   none, ⟨[2], [1, 1]⟩⟩

/-- Concrete rank-1 batch for the C5 witness. -/
def BW5 : Tensor := ⟨[1], [10]⟩

/-- Witness for C5 on the concrete tied module `MW5` and vector `BW5`. -/
theorem decode_is_bare_affine_with_resolved_weight_witness :
    ∃ t : Tensor,
      F_linear BW5 MW5.decoder_weight MW5.decoder_bias = .ok t ∧
      MW5.decode BW5 = .ok t ∧
      t.shape = [] ++ [2] ∧
      (∀ r o : Nat, r < List.prod ([] : List Nat) → o < 2 →
        t.data.getD (r * 2 + o) 0 =
          dot (sliceRow BW5.data 1 r)
              (sliceRow MW5.decoder_weight.data 1 o) +
            MW5.decoder_bias.data.getD o 0) ∧
      (∀ w : Tensor, MW5._decoder_weight = some w →
        MW5.decoder_weight = w) ∧
      (MW5._decoder_weight = none →
        MW5.decoder_weight = MW5.encoder_weight.t) :=
  decode_is_bare_affine_with_resolved_weight MW5 2 1 [] BW5 rfl rfl rfl

/-- Witness for C7 at E = 2, H = 3, tied = true. -/
theorem biases_zero_and_decoder_bias_independent_witness :
    ∃ m : Autoencoder,
      Autoencoder.construct 2 3 none none 1 true (fun _ => 1)
          (fun _ => 1) = .ok m ∧
      m.encoder_bias.shape = [3] ∧
      m.encoder_bias.data = List.replicate 3 0 ∧
      m.decoder_bias.shape = [2] ∧
      m.decoder_bias.data = List.replicate 2 0 ∧
      (∀ b' : Tensor,
        ({ m with encoder_bias := b' } : Autoencoder).decoder_bias =
          m.decoder_bias) :=
  biases_zero_and_decoder_bias_independent 2 3 (by decide) (by decide)
    none none 1 true (fun _ => 1) (fun _ => 1)

/-- Witness for C9 at E = 2, H = 3. -/
theorem untied_decoder_weight_is_independent_witness :
    ∃ (m : Autoencoder) (wd : Tensor),
      Autoencoder.construct 2 3 none none 1 false (fun _ => 1)
          (fun n => (n : ℚ)) = .ok m ∧
      m._decoder_weight = some wd ∧
      m.decoder_weight = wd ∧
      (∀ w' : Tensor,
        ({ m with encoder_weight := w' } : Autoencoder).decoder_weight =
          m.decoder_weight) ∧
      (∀ w' : Tensor,
        ({ m with encoder_weight := w' } : Autoencoder).decoder_weight =
          wd) ∧
      (∀ wd' : Tensor,
        ({ m with _decoder_weight := some wd' } : Autoencoder).encoder_weight =
          m.encoder_weight) :=
  untied_decoder_weight_is_independent 2 3 (by decide) (by decide)
    none none 1 (fun _ => 1) (fun n => (n : ℚ))

/-- Concrete 2-to-1 untied module for the C8 witness. -/
def MW8 : Autoencoder :=
  ⟨2, 1, none, none, 1,
   ⟨[1, 2], [1, 1]⟩, ⟨[1], [0]⟩,
   some ⟨[2, 1], [1, 1]⟩, ⟨[2], [0, 0]⟩⟩

/-- Concrete batch of shape (1, 2) for the C8 witness. -/
def BW8 : Tensor := ⟨[1, 2], [2, 3]⟩

/-- Witness for C8 on the concrete module `MW8` and batch `BW8`. -/
theorem forward_is_decode_of_encode_and_preserves_shape_witness :
    ∃ t u : Tensor,
      MW8.encode BW8 = .ok t ∧ t.shape = [1, 1] ∧
      MW8.decode t = .ok u ∧ u.shape = [1, 2] ∧
      MW8.forward BW8 = .ok u :=
  forward_is_decode_of_encode_and_preserves_shape MW8 1 1 2 BW8
    rfl rfl rfl rfl (fun _ => rfl) (fun _ => rfl) rfl

/-- Concrete 2-to-1 untied module for the C10 witness. -/
def MW10 : Autoencoder :=
  ⟨2, 1, none, none, 1,
   ⟨[1, 2], [1, 2]⟩, ⟨[1], [3]⟩,
   some ⟨[2, 1], [4, 5]⟩, ⟨[2], [6, 7]⟩⟩

/-- Witness for C10 on the concrete module `MW10`. -/
theorem operations_accept_any_rank_at_least_one_witness :
    (∀ (bs : List Nat) (batch : Tensor), batch.shape = bs ++ [2] →
      ∃ t : Tensor, MW10.encode batch = .ok t ∧ t.shape = bs ++ [1]) ∧
    (∀ (bs : List Nat) (batch : Tensor), batch.shape = bs ++ [1] →
      ∃ u : Tensor, MW10.decode batch = .ok u ∧ u.shape = bs ++ [2]) ∧
    (∀ (bs : List Nat) (batch : Tensor), batch.shape = bs ++ [2] →
      ∃ v : Tensor, MW10.forward batch = .ok v ∧ v.shape = bs ++ [2]) ∧
    (∀ vec : Tensor, vec.shape = [2] →
      ∃ t : Tensor, MW10.encode vec = .ok t ∧ t.shape = [1]) :=
  operations_accept_any_rank_at_least_one MW10 1 2
    rfl rfl rfl rfl (fun _ => rfl) (fun _ => rfl)

/-- Witness for the amended C3 on concrete inputs: encode and decode
errors on wrong trailing dimensions, and the partially completed
copy_weights call. -/
theorem shape_errors_synchronous_and_copy_weights_sequential_witness :
    M3.encode ⟨[3], [1, 2, 3]⟩ = .error .shapeMismatch ∧
    M3.decode ⟨[2], [1, 2]⟩ = .error .shapeMismatch ∧
    M3.copy_weights encT3 decT3 =
      ((⟨⟨[1, 2], [1, 2]⟩, ⟨[1], [0]⟩⟩, decT3), some .shapeMismatch) :=
  ⟨shape_errors_synchronous_and_copy_weights_sequential.1 M3 1 2
      ⟨[3], [1, 2, 3]⟩ rfl rfl (Or.inr (by decide)),
   shape_errors_synchronous_and_copy_weights_sequential.2.1 M3 2 1
      ⟨[2], [1, 2]⟩ rfl rfl (Or.inr (by decide)),
   shape_errors_synchronous_and_copy_weights_sequential.2.2 M3 encT3 decT3
      ⟨[1, 2], [1, 2]⟩ ⟨[1], [0]⟩ .shapeMismatch (by decide) (by decide)
      (by decide)⟩

/-- Witness for the amended C4: success at (5, 4), the allocation error
at (-1, 4), and success at (0, 4). -/
theorem construct_has_no_dimension_validation_witness :
    (Autoencoder.construct 5 4 none none 1 false (fun _ => 1)
        (fun _ => 1)).toBool = true ∧
    Autoencoder.construct (-1) 4 none none 1 false (fun _ => 1)
        (fun _ => 1) = .error .negativeDimension ∧
    (Autoencoder.construct 0 4 none none 1 false (fun _ => 1)
        (fun _ => 1)).toBool = true :=
  ⟨construct_has_no_dimension_validation.1 5 4 none none 1 false
      (fun _ => 1) (fun _ => 1) (by decide) (by decide),
   construct_has_no_dimension_validation.2.1 (-1) 4 none none 1 false
      (fun _ => 1) (fun _ => 1) (Or.inl (by decide)),
   construct_has_no_dimension_validation.2.2 4 none none 1 false
      (fun _ => 1) (fun _ => 1) (by decide)⟩

/-- Target encoder with exactly matching shapes for the C6 witness. -/
def encX6 : Linear := ⟨⟨[1, 1], [0]⟩, ⟨[1], [1]⟩⟩

/-- Target decoder with exactly matching shapes for the C6 witness. -/
def decX6 : Linear := ⟨⟨[1, 1], [2]⟩, ⟨[1], [3]⟩⟩

/-- Witness for the amended C6 on the concrete module `M6` with targets
of exactly matching shapes. -/
theorem copy_weights_exact_shapes_copy_elementwise_witness :
    M6.copy_weights encX6 decX6 =
      ((⟨M6.encoder_weight, M6.encoder_bias⟩,
        ⟨M6.decoder_weight, M6.decoder_bias⟩), none) :=
  copy_weights_exact_shapes_copy_elementwise M6 encX6 decX6
    rfl (by decide) rfl (by decide) rfl (by decide) rfl (by decide)
